import Mathlib

/-!
Verification of the Decaf compiler middle/back end (decaf_ast.py,
decaf_scope.py, decaf_codegen.py, decaf_util.py, decaf_absmc.py).

The Python source is shallowly embedded: mutable process-wide state
(the dependency tree, the temporary-register counter, the label counter)
is threaded explicitly, and every `raise` is modelled with `Except.error`.
-/

/-! ## Types (`TypeRecord` hierarchy, decaf_ast.py)

The built-in `BuiltInTypeRecord`s are interned singletons compared by
identity, so an inductive with one constructor per singleton plus the
`UserTypeRecord` / `ClassLiteralTypeRecord` variants is a faithful model. -/

inductive TR where
  | int
  | float
  | bool
  | str
  | void
  | null
  | error
  | user (name : String)
  | classLit (name : String)
deriving DecidableEq, Repr

/-- `isinstance(x, BuiltInTypeRecord)` for the modelled variants. -/
def TR.isBuiltIn : TR → Bool
  | .user _ => false
  | .classLit _ => false
  | _ => true

/-! ## Dependency tree (`DependencyTree`, decaf_ast.py)

`CLASS_NAME_TO_NODE` is modelled as an association list with the most
recently registered class in front.  Each node keeps its super-class
name (`none` means its parent is the synthetic root), the layout `size`
slot (`none` until the layout pass writes it) and the member maps keyed
by `"applicability:name"` exactly as in `ClassRecord`. -/

/-- The per-member data `resolve_field` / `resolve_method` inspect:
the member's `applicability` string and its numeric id. -/
structure MemberR where
  app : String
  mid : Nat
deriving DecidableEq, Repr

structure ClassInfo where
  superName : Option String
  size : Option Int
  fieldMap : List (String × MemberR)
  methodMap : List (String × MemberR)
deriving DecidableEq, Repr

/-- `DependencyTree.CLASS_NAME_TO_NODE`, newest registration first. -/
abbrev TreeMap := List (String × ClassInfo)

/-- `DependencyTree.BUILTIN_SUBTYPES`: a partial map; looking up a key
outside `{int, float, boolean, string}` is a Python `KeyError`. -/
def BUILTIN_SUBTYPES : TR → Option (List TR)
  | .int => some []
  | .float => some [.int]
  | .bool => some []
  | .str => some []
  | _ => none

/-- `DependencyTree.__builtin_is_subtype`: `a == b` or membership in
`BUILTIN_SUBTYPES[b]` (which may raise `KeyError`). -/
def builtin_is_subtype (a b : TR) : Except String Bool :=
  if a = b then .ok true
  else
    match BUILTIN_SUBTYPES b with
    | some l => .ok (l.contains a)
    | none => .error "KeyError"

/-- The parent-chain loop of `DependencyTree.__classname_is_subtype`:
`while curr != None: if curr == target: return True; curr = curr.parent`.
Following a `superName` pointer moves to a strictly older entry of a
well-formed tree, so fuel `m.length + 1` never runs out (proved below). -/
def chainWalk (m : TreeMap) : Nat → String → String → Bool
  | 0, _, _ => false
  | fuel + 1, a, b =>
    if a = b then true
    else
      match m.lookup a with
      | some info =>
        match info.superName with
        | some p => chainWalk m fuel p b
        | none => false
      | none => false

/-- `DependencyTree.__classname_is_subtype`: raises on an unknown class
name on either side, otherwise walks the parent chain. -/
def classname_is_subtype (m : TreeMap) (a b : String) : Except String Bool :=
  if (m.lookup a).isNone then .error ("unknown class name: " ++ a)
  else if (m.lookup b).isNone then .error ("unknown class name: " ++ b)
  else .ok (chainWalk m (m.length + 1) a b)

/-- `DependencyTree.is_subtype`, mirroring its `isinstance` dispatch. -/
def is_subtype (m : TreeMap) (a b : TR) : Except String Bool :=
  if a = TR.error then .ok false
  else if b = TR.error then .ok false
  else if a.isBuiltIn then
    if b.isBuiltIn then builtin_is_subtype a b
    else
      match b with
      | .user _ => .ok (a = TR.null)
      | _ => .ok false
  else
    match a with
    | .user x =>
      match b with
      | .user y => classname_is_subtype m x y
      | _ => .ok false
    | .classLit x =>
      match b with
      | .classLit y => classname_is_subtype m x y
      | _ => .ok false
    | _ => .ok false

/-! ## Layout pass (`resolve_sizes_and_offsets`, decaf_codegen.py)

The pass mutates `FieldRecord.offset` and `ClassRecord.size`; the model
returns decorated copies and threads the static counter and the sizes
already written into the registry. -/

structure FieldL where
  fid : Nat
  isStatic : Bool
deriving DecidableEq, Repr

structure FieldOut where
  fid : Nat
  isStatic : Bool
  offset : Nat
deriving DecidableEq, Repr

structure ClassL where
  cname : String
  superName : Option String
  cfields : List FieldL
deriving DecidableEq, Repr

structure ClassOut where
  cname : String
  superName : Option String
  csize : Nat
  cfields : List FieldOut
deriving DecidableEq, Repr

/-- The field loop: statics consume the shared static counter, instance
fields the per-class instance counter (`Counter.next` returns the
current value and increments). -/
def assignFields : List FieldL → Nat → Nat → List FieldOut × Nat × Nat
  | [], sctr, ictr => ([], sctr, ictr)
  | f :: rest, sctr, ictr =>
    if f.isStatic then
      let (fs, s', i') := assignFields rest (sctr + 1) ictr
      (⟨f.fid, f.isStatic, sctr⟩ :: fs, s', i')
    else
      let (fs, s', i') := assignFields rest sctr (ictr + 1)
      (⟨f.fid, f.isStatic, ictr⟩ :: fs, s', i')

/-- One iteration of the class loop: fetch the super's `size` (0 when
there is no super; a super whose record or size is missing raises),
start the instance counter there, lay out the fields, and take the
class size from the instance counter's final value. -/
def superSize (szm : List (String × Nat)) (c : ClassL) : Except String Nat :=
  match c.superName with
  | none => .ok 0
  | some s =>
    match szm.lookup s with
    | some v => .ok v
    | none =>
      .error
        "illegal program state - super class cannot be None after type checking"

def layoutClass (szm : List (String × Nat)) (sctr : Nat) (c : ClassL) :
    Except String (ClassOut × Nat) :=
  match superSize szm c with
  | .error e => .error e
  | .ok ssize =>
    match assignFields c.cfields sctr ssize with
    | (fs, sctr', ictr') => .ok (⟨c.cname, c.superName, ictr', fs⟩, sctr')

/-- The class loop of `resolve_sizes_and_offsets`, recording each
computed size into the registry view `szm`. -/
def resolveGo : List ClassL → Nat → List (String × Nat) →
    Except String (List ClassOut × Nat)
  | [], sctr, _ => .ok ([], sctr)
  | c :: cs, sctr, szm =>
    match layoutClass szm sctr c with
    | .error e => .error e
    | .ok (co, sctr') =>
      match resolveGo cs sctr' ((c.cname, co.csize) :: szm) with
      | .error e => .error e
      | .ok (outs, n) => .ok (co :: outs, n)

/-- `resolve_sizes_and_offsets`: returns the decorated classes and the
final static counter value (the total static-slot count). -/
def resolve_sizes_and_offsets (cs : List ClassL) :
    Except String (List ClassOut × Nat) :=
  resolveGo cs 0 []

/-- Instance-field offsets of a laid-out class, in declaration order. -/
def instOffsets (co : ClassOut) : List Nat :=
  (co.cfields.filter (fun f => !f.isStatic)).map (fun f => f.offset)

/-- Static-field offsets of a laid-out class, in declaration order. -/
def staticOffsets (co : ClassOut) : List Nat :=
  (co.cfields.filter (fun f => f.isStatic)).map (fun f => f.offset)

/-- All static offsets assigned across the class list, in order. -/
def allStaticOffsets (outs : List ClassOut) : List Nat :=
  outs.flatMap staticOffsets

/-! ## Scope stack (`Scope.add_symbol`, decaf_scope.py) -/

/-- `VariableRecord`: the fields `add_symbol` touches (`id` is `None`
until a scope assigns it). -/
structure VariableRec where
  vname : String
  vid : Option Nat
deriving DecidableEq, Repr

/-- One scope's mutable tables: the symbol table (a dict, modelled as an
association list with newest insertion first) and the shared per-member
variable table (append order preserved). -/
structure ScopeT where
  symbolTable : List (String × VariableRec)
  variableTable : List VariableRec
deriving DecidableEq, Repr

/-- `Scope.add_symbol`: reject an existing name, otherwise insert the
record, stamp `ref.id = len(variable_table) + 1` and append it. -/
def add_symbol (sc : ScopeT) (ref : VariableRec) : Bool × ScopeT :=
  if (sc.symbolTable.lookup ref.vname).isSome then (false, sc)
  else
    let stamped : VariableRec := ⟨ref.vname, some (sc.variableTable.length + 1)⟩
    (true,
      { symbolTable := (ref.vname, stamped) :: sc.symbolTable,
        variableTable := sc.variableTable ++ [stamped] })

/-! ## Code generator (decaf_absmc.py, decaf_ast.py `generate_code`)

The process-wide `GlobalTemporaryRegisterGenerator` wraps a
`Counter`; crucially `Counter.reset(new_start)` with a value overwrites
`start` as well, so a later argument-less `reset()` restarts from that
value, not from 0 (decaf_util.py lines 14-17). -/

structure TempGen where
  start : Nat
  curr : Nat
deriving DecidableEq, Repr

/-- `RegisterGenerator.next` for the `t` family. -/
def TempGen.nextReg (g : TempGen) : String × TempGen :=
  ("t" ++ toString g.curr, { g with curr := g.curr + 1 })

/-- `Counter.reset`: with a value, `start` is overwritten too. -/
def TempGen.reset (g : TempGen) : Option Nat → TempGen
  | some s => { start := s, curr := s }
  | none => { g with curr := g.start }

/-- Codegen state threaded through `generate_code`: the temporary
generator and the (never reset) label counter. -/
structure CG where
  temp : TempGen
  lbl : Nat
deriving DecidableEq, Repr

def CG.nextTemp (st : CG) : String × CG :=
  let (r, g) := st.temp.nextReg
  (r, { st with temp := g })

/-- `LabelGenerator.next`. -/
def CG.nextLabel (st : CG) : String × CG :=
  ("L" ++ toString st.lbl, { st with lbl := st.lbl + 1 })

/-- `NestedStrList`: strings nested in lists of lists. -/
inductive Code where
  | ln (s : String)
  | blk (xs : List Code)

mutual

/-- The DFS of `print_code`, keeping every line. -/
def Code.flatten : Code → List String
  | .ln s => [s]
  | .blk xs => Code.flattenList xs

def Code.flattenList : List Code → List String
  | [] => []
  | c :: cs => Code.flatten c ++ Code.flattenList cs

end

/-- `sub_code.startswith("#")`: the line is a comment. -/
def isCommentLine (s : String) : Bool :=
  match s.data with
  | c :: _ => c = '#'
  | [] => false

/-- The lines `print_code` prints as instructions when debug comments
are off: everything except `#`-comment lines. -/
def instrLines (ls : List String) : List String :=
  ls.filter (fun s => !(isCommentLine s))

/-- Unary operators as produced by the parser (rules/expr.py). -/
inductive UOp where
  | uminus
  | neg
deriving DecidableEq, Repr

/-- The operator string stored on the record. -/
def UOp.opStr : UOp → String
  | .uminus => "uminus"
  | .neg => "neg"

inductive BOp where
  | add | sub | mul | div | and | or | eq | neq | lt | leq | gt | geq
deriving DecidableEq, Repr

def BOp.opStr : BOp → String
  | .add => "add"
  | .sub => "sub"
  | .mul => "mul"
  | .div => "div"
  | .and => "and"
  | .or => "or"
  | .eq => "eq"
  | .neq => "neq"
  | .lt => "lt"
  | .leq => "leq"
  | .gt => "gt"
  | .geq => "geq"

/-- The `MethodRecord` data a resolved call site reads. -/
structure MethodRecCG where
  mname : String
  mid : Nat
  applicability : String
  paramTypes : List TR
  returnType : TR
deriving DecidableEq, Repr

/-- The `ConstructorRecord` data a resolved `new` expression reads. -/
structure ConsRecCG where
  cid : Nat
  containingClass : String
  paramTypes : List TR
deriving DecidableEq, Repr

/-- The expression fragment covered by the embedding: constants, unary
and binary operators, resolved method calls and object creations.
(`Var`, `this`, field access, assignment, auto and string expressions
are outside this fragment.) -/
inductive Expr where
  | intC (v : Int)
  | floatC (v : String)
  | boolC (b : Bool)
  | nullC
  | unary (op : UOp) (e : Expr)
  | binary (op : BOp) (l r : Expr)
  | methodCall (base : Expr) (meth : MethodRecCG) (args : List Expr)
  | newObject (cons : ConsRecCG) (args : List Expr)

/-- The statement fragment covered by the embedding. -/
inductive Stmt where
  | ifS (cond : Expr) (thenS : Stmt) (elseS : Option Stmt)
  | exprS (e : Expr)
  | blockS (ss : List Stmt)
  | skipS

/-- The memoized `.type` slot each record carries when code generation
runs (filled by `compute_type`; a program that would have raised there
never reaches code generation, in which case `.error` stands in). -/
def ety : Expr → TR
  | .intC _ => .int
  | .floatC _ => .float
  | .boolC _ => .bool
  | .nullC => .null
  | .unary op e =>
    match op with
    | .uminus => if ety e = .int ∨ ety e = .float then ety e else .error
    | .neg => if ety e = .bool then .bool else .error
  | .binary op l r =>
    let tl := ety l
    let tr := ety r
    match op with
    | .add | .sub | .mul | .div =>
      if (tl = .int ∨ tl = .float) ∧ (tr = .int ∨ tr = .float) then
        if tl = .float ∨ tr = .float then .float else .int
      else .error
    | .and | .or => if tl = .bool ∧ tr = .bool then .bool else .error
    | .lt | .leq | .gt | .geq =>
      if (tl = .int ∨ tl = .float) ∧ (tr = .int ∨ tr = .float) then .bool
      else .error
    | .eq | .neq => .bool
  | .methodCall _ meth _ => meth.returnType
  | .newObject cons _ => .user cons.containingClass

/-- The "copy over the rest of arguments" loop of a call site: each
argument's `get_value_register()` is moved into the next `a`-register.
An argument whose code was never generated (arity overflow after `zip`
truncation) has no register and raises. -/
def argMoves : List Expr → List String → Nat → Except String (List Code)
  | [], _, _ => .ok []
  | _ :: _, [], _ => .error "tried to use register, but it is not set"
  | _ :: tl, r :: rs, i => do
    let rest ← argMoves tl rs (i + 1)
    .ok (Code.blk [.ln ("move a" ++ toString i ++ ", " ++ r),
                   .ln ("# a" ++ toString i ++ " = " ++ r)] :: rest)

mutual

/-- `ExpressionRecord.generate_code` over the embedded fragment,
returning the emitted code, the expression's `value_reg` and the new
counter state. -/
def genExpr (m : TreeMap) : Expr → CG → Except String (Code × String × CG)
  | .intC v, st =>
    let (t, st1) := st.nextTemp
    .ok (.blk [.ln ("move_immed_i " ++ t ++ ", " ++ toString v),
               .ln ("# " ++ t ++ " = " ++ toString v)], t, st1)
  | .floatC v, st =>
    let (t, st1) := st.nextTemp
    .ok (.blk [.ln ("move_immed_f " ++ t ++ ", " ++ v),
               .ln ("# " ++ t ++ " = " ++ v)], t, st1)
  | .boolC b, st =>
    let (t, st1) := st.nextTemp
    .ok (.blk [.ln ("move_immed_i " ++ t ++ ", " ++ (if b then "1" else "0")),
               .ln ("# " ++ t ++ " = " ++ (if b then "True" else "False"))],
        t, st1)
  | .nullC, st =>
    let (t, st1) := st.nextTemp
    .ok (.blk [.ln ("move_immed_i " ++ t ++ ", 0"),
               .ln ("# " ++ t ++ " = null")], t, st1)
  | .unary op e, st => do
    let (ec, et, st1) ← genExpr m e st
    let (offT, st2) := st1.nextTemp
    let (outT, st3) := st2.nextTemp
    -- the source compares against the misspelt literal "unminus"
    if op.opStr = "unminus" then
      if ety e = .int then
        .ok (.blk [ec,
                   .ln ("move_immed_i " ++ offT ++ ", -1"),
                   .ln ("# " ++ offT ++ " = -1"),
                   .ln ("imul " ++ outT ++ ", " ++ offT ++ ", " ++ et),
                   .ln ("# " ++ outT ++ " = -" ++ et)], outT, st3)
      else
        .ok (.blk [ec,
                   .ln ("move_immed_f " ++ offT ++ ", -1.0"),
                   .ln ("# " ++ offT ++ " = -1.0"),
                   .ln ("fmul " ++ outT ++ ", " ++ offT ++ ", " ++ et),
                   .ln ("# " ++ outT ++ " = -" ++ et)], outT, st3)
    else
      .ok (.blk [ec,
                 .ln ("move_immed_i " ++ offT ++ ", 1"),
                 .ln ("# " ++ offT ++ " = 1"),
                 .ln ("isub " ++ outT ++ ", " ++ offT ++ ", " ++ et),
                 .ln ("# " ++ outT ++ " = !" ++ et)], outT, st3)
  | .binary op l r, st => do
    let (lc, lt', st1) ← genExpr m l st
    let (rc, rt', st2) ← genExpr m r st1
    let (outT, st3) := st2.nextTemp
    match op with
    | .add | .sub | .mul | .div =>
      if ety (.binary op l r) = .int then
        .ok (.blk [.blk [lc, rc],
                   .ln ("i" ++ op.opStr ++ " " ++ outT ++ ", " ++ lt' ++ ", " ++ rt'),
                   .ln ("# " ++ outT ++ " = " ++ lt' ++ " " ++ op.opStr ++ " " ++ rt')],
            outT, st3)
      else
        let lcast : List Code :=
          if ety l = .int then
            [.blk [.ln ("itof " ++ lt' ++ ", " ++ lt'),
                   .ln ("# " ++ lt' ++ " = (float) " ++ lt')]]
          else []
        let rcast : List Code :=
          if ety r = .int then
            [.blk [.ln ("itof " ++ rt' ++ ", " ++ rt'),
                   .ln ("# " ++ rt' ++ " = (float) " ++ rt')]]
          else []
        .ok (.blk [.blk ([lc, rc] ++ lcast ++ rcast),
                   .ln ("f" ++ op.opStr ++ " " ++ outT ++ ", " ++ lt' ++ ", " ++ rt'),
                   .ln ("# " ++ outT ++ " = " ++ lt' ++ " " ++ op.opStr ++ " " ++ rt')],
            outT, st3)
    | .and =>
      .ok (.blk [.blk [lc, rc],
                 .ln ("imul " ++ outT ++ ", " ++ lt' ++ ", " ++ rt'),
                 .ln ("# " ++ outT ++ " = " ++ lt' ++ " AND " ++ rt')], outT, st3)
    | .or =>
      let (zeroT, st4) := st3.nextTemp
      -- two adjacent f-strings in the source concatenate into ONE line
      .ok (.blk [.blk [lc, rc],
                 .ln ("iadd " ++ outT ++ ", " ++ lt' ++ ", " ++ rt'),
                 .ln ("# " ++ outT ++ " = " ++ lt' ++ " + " ++ rt' ++
                      "move_immed_i " ++ zeroT ++ ", 0"),
                 .ln ("# " ++ zeroT ++ " = 0"),
                 .ln ("igt " ++ outT ++ ", " ++ outT ++ ", " ++ zeroT),
                 .ln ("# " ++ outT ++ " = " ++ lt' ++ " OR " ++ rt')], outT, st4)
    | .lt | .leq | .gt | .geq =>
      if ety l = ety r then
        if ety l = .int then
          .ok (.blk [.blk [lc, rc],
                     .ln ("i" ++ op.opStr ++ " " ++ outT ++ ", " ++ lt' ++ ", " ++ rt'),
                     .ln ("# " ++ outT ++ " = " ++ lt' ++ " " ++ op.opStr ++ " " ++ rt')],
              outT, st3)
        else
          .ok (.blk [.blk [lc, rc],
                     .ln ("f" ++ op.opStr ++ " " ++ outT ++ ", " ++ lt' ++ ", " ++ rt'),
                     .ln ("# " ++ outT ++ " = " ++ lt' ++ " " ++ op.opStr ++ " " ++ rt')],
              outT, st3)
      else
        let lcast : List Code :=
          if ety l = .int then
            [.blk [.ln ("itof " ++ lt' ++ ", " ++ lt'),
                   .ln ("# " ++ lt' ++ " = (float) " ++ lt')]]
          else []
        let rcast : List Code :=
          if ety r = .int then
            [.blk [.ln ("itof " ++ rt' ++ ", " ++ rt'),
                   .ln ("# " ++ rt' ++ " = (float) " ++ rt')]]
          else []
        .ok (.blk [.blk ([lc, rc] ++ lcast ++ rcast),
                   .ln ("f" ++ op.opStr ++ " " ++ outT ++ ", " ++ lt' ++ ", " ++ rt'),
                   .ln ("# " ++ outT ++ " = " ++ lt' ++ " " ++ op.opStr ++ " " ++ rt')],
            outT, st3)
    | .eq | .neq => do
      -- a, b = left, right, swapped when right.type <: left.type
      let swap ← is_subtype m (ety r) (ety l)
      let aT := if swap then rt' else lt'
      let bT := if swap then lt' else rt'
      let aTy := if swap then ety r else ety l
      let bTy := if swap then ety l else ety r
      let (lessT, st4) := st3.nextTemp
      let (moreT, st5) := st4.nextTemp
      let cmpPart : List Code :=
        if bTy = .float then
          (if aTy = .int then
            [Code.blk [.ln ("itof " ++ aT ++ ", " ++ aT),
                       .ln ("# " ++ aT ++ " = (float) " ++ aT)]]
          else []) ++
          [Code.blk [.ln ("flt " ++ lessT ++ ", " ++ aT ++ ", " ++ bT),
                     .ln ("# " ++ lessT ++ " = " ++ aT ++ " < " ++ bT),
                     .ln ("fgt " ++ moreT ++ ", " ++ aT ++ ", " ++ bT),
                     .ln ("# " ++ moreT ++ " = " ++ aT ++ " > " ++ bT)]]
        else
          [Code.blk [.ln ("ilt " ++ lessT ++ ", " ++ aT ++ ", " ++ bT),
                     .ln ("# " ++ lessT ++ " = " ++ aT ++ " < " ++ bT),
                     .ln ("igt " ++ moreT ++ ", " ++ aT ++ ", " ++ bT),
                     .ln ("# " ++ moreT ++ " = " ++ aT ++ " > " ++ bT)]]
      let (zeroT, st6) := st5.nextTemp
      -- the first comment and the move_immed_i are ONE concatenated string
      let sumPart : Code := .blk
        [.ln ("iadd " ++ outT ++ ", " ++ lessT ++ ", " ++ moreT),
         .ln ("# " ++ outT ++ " = " ++ lessT ++ " + " ++ moreT ++
              "move_immed_i " ++ zeroT ++ ", 0"),
         .ln ("# " ++ zeroT ++ " = 0"),
         .ln ("igt " ++ outT ++ ", " ++ outT ++ ", " ++ zeroT),
         .ln ("# " ++ outT ++ " = " ++ lessT ++ " OR " ++ moreT ++
              "# " ++ outT ++ " = " ++ aT ++ " != " ++ bT)]
      let out := [lc, rc] ++ cmpPart ++ [sumPart]
      if op = BOp.neq then .ok (.blk out, outT, st6)
      else
        let (oneT, st7) := st6.nextTemp
        .ok (.blk [.blk out,
                   .ln ("move_immed_i " ++ oneT ++ ", 1"),
                   .ln ("# " ++ oneT ++ " = 1"),
                   .ln ("isub " ++ outT ++ ", " ++ oneT ++ ", " ++ outT),
                   .ln ("# " ++ outT ++ " = !" ++ outT),
                   .ln ("# " ++ outT ++ " = " ++ aT ++ " == " ++ bT)], outT, st7)
  | .methodCall base meth args, st =>
    let seed := st.temp.curr
    match genArgs m meth.paramTypes args st with
    | .error e => .error e
    | .ok (argItems, argRegs, st1) =>
      let aNeeded := meth.paramTypes.length +
        (if meth.applicability = "instance" then 1 else 0)
      let saved := ((List.range aNeeded).map (fun i => "a" ++ toString i)) ++
        ((List.range seed).map (fun j => "t" ++ toString j))
      let saveLines : List Code := saved.map (fun r => Code.ln ("save " ++ r))
      let baseSection : Except String (List Code × CG) :=
        if meth.applicability = "instance" then
          match genExpr m base st1 with
          | .error e => .error e
          | .ok (bc, bt, st2) =>
            .ok ([Code.blk [bc, .ln ("move a0, " ++ bt),
                            .ln ("# a0 = " ++ bt)]], st2)
        else .ok ([], st1)
      match baseSection with
      | .error e => .error e
      | .ok (baseItems, st2) =>
        match argMoves args argRegs
            (if meth.applicability = "instance" then 1 else 0) with
        | .error e => .error e
        | .ok moveItems =>
          let callLine :=
            Code.ln ("call M_" ++ meth.mname ++ "_" ++ toString meth.mid)
          let st3 : CG := { st2 with temp := st2.temp.reset (some seed) }
          match st3.nextTemp with
          | (outT, st4) =>
            let retItem : Code :=
              if meth.returnType = .void then
                .blk [.ln ("move_immed_i " ++ outT ++ ", 0"),
                      .ln ("# " ++ outT ++ " = 0")]
              else
                .blk [.ln ("move " ++ outT ++ ", a0"),
                      .ln ("# " ++ outT ++ " = a0")]
            let restoreLines : List Code :=
              saved.reverse.map (fun r => Code.ln ("restore " ++ r))
            .ok (.blk (argItems ++ saveLines ++ baseItems ++ moveItems ++
                       [callLine, retItem] ++ restoreLines), outT, st4)
  | .newObject cons args, st =>
    match st.nextTemp with
    | (outT, st0) =>
      match m.lookup cons.containingClass with
      | none =>
        .error ("illegal program state - expected class record for " ++
          cons.containingClass ++ " to be defined")
      | some info =>
        let sizeStr :=
          match info.size with
          | some n => toString n
          | none => "None"
        let seed := st0.temp.curr
        match genArgs m cons.paramTypes args st0 with
        | .error e => .error e
        | .ok (argItems, argRegs, st1) =>
          let saved :=
            ((List.range (cons.paramTypes.length + 1)).map
              (fun i => "a" ++ toString i)) ++
            ((List.range seed).map (fun j => "t" ++ toString j))
          let saveLines : List Code := saved.map (fun r => Code.ln ("save " ++ r))
          let baseMove : Code :=
            .blk [.ln ("move a0, " ++ outT), .ln ("# a0 = " ++ outT)]
          match argMoves args argRegs 1 with
          | .error e => .error e
          | .ok moveItems =>
            let callLine := Code.ln ("call C_" ++ toString cons.cid)
            let st2 : CG := { st1 with temp := st1.temp.reset (some seed) }
            let restoreLines : List Code :=
              saved.reverse.map (fun r => Code.ln ("restore " ++ r))
            .ok (.blk ([Code.ln ("halloc " ++ outT ++ ", " ++ sizeStr)] ++
                       argItems ++ saveLines ++ [baseMove] ++ moveItems ++
                       [callLine] ++ restoreLines),
                outT, st2)

/-- The argument-evaluation loop `for p, a in zip(parameters, arguments)`
of a call site: generate each argument, insert an `itof` when an int is
passed for a float parameter; also collect the argument registers. -/
def genArgs (m : TreeMap) : List TR → List Expr → CG →
    Except String (List Code × List String × CG)
  | _, [], st => .ok ([], [], st)
  | [], _ :: _, st => .ok ([], [], st)
  | p :: ps, a :: tl, st => do
    let (ac, areg, st1) ← genExpr m a st
    let casts : List Code :=
      if p = TR.float ∧ ety a = TR.int then
        [.ln ("itof " ++ areg ++ ", " ++ areg)]
      else []
    let (rest, regs, st2) ← genArgs m ps tl st1
    .ok ([ac] ++ casts ++ rest, areg :: regs, st2)

/-- `StatementRecord.generate_code` over the embedded fragment.  The
if-with-else branch reproduces the source exactly: the `end` label is
drawn before the then-code, the else body is generated from
`self.then_stmt`, and the `else` label is drawn afterwards. -/
def genStmt (m : TreeMap) : Stmt → CG → Except String (Code × CG)
  | .ifS cond thenS elseS, st => do
    let (cc, ct, st1) ← genExpr m cond st
    let (endL, st2) := st1.nextLabel
    let (tc, st3) ← genStmt m thenS st2
    match elseS with
    | none =>
      .ok (.blk [cc, .ln ("bz " ++ ct ++ ", " ++ endL), tc, .ln (endL ++ ":")], st3)
    | some _ => do
      let (ec, st4) ← genStmt m thenS st3
      let (elseL, st5) := st4.nextLabel
      .ok (.blk [cc, .ln ("bz " ++ ct ++ ", " ++ elseL), tc,
                 .ln ("jmp " ++ endL), .ln (elseL ++ ":"), ec,
                 .ln (endL ++ ":")], st5)
  | .exprS e, st => do
    let (c, _, st1) ← genExpr m e st
    .ok (c, st1)
  | .blockS ss, st => do
    let (cs, st1) ← genStmts m ss st
    .ok (.blk cs, st1)
  | .skipS, st => .ok (.blk [], st)

/-- `BlockStatementRecord.generate_code`: one code item per statement. -/
def genStmts (m : TreeMap) : List Stmt → CG → Except String (List Code × CG)
  | [], st => .ok ([], st)
  | s :: rest, st => do
    let (c, st1) ← genStmt m s st
    let (cs, st2) ← genStmts m rest st1
    .ok (c :: cs, st2)

end

/-- The `MethodRecord` data its `generate_code` reads for a member with
no formals in the embedded fragment. -/
structure MethodDecl where
  dname : String
  did : Nat
  applicability : String
  body : Stmt

/-- `MethodRecord.generate_code`: "we need fresh pool of registers" —
`GlobalTemporaryRegisterGenerator.reset()` — then the label line and the
body.  Stamping `this`/formals uses only `a`-registers and emits no
lines. -/
def MethodDecl.generate_code (m : TreeMap) (d : MethodDecl) (st : CG) :
    Except String (Code × CG) := do
  let st0 : CG := { st with temp := st.temp.reset none }
  let (bc, st1) ← genStmt m d.body st0
  .ok (.blk [.ln ("M_" ++ d.dname ++ "_" ++ toString d.did ++ ":"), bc], st1)

/-! ### Well-formed trees and the ancestor relation -/

/-- The invariant `register_class` maintains: every entry's name is new
at registration time and its super class is already registered. -/
inductive WFTree : TreeMap → Prop
  | nil : WFTree []
  | cons {m : TreeMap} {name : String} {info : ClassInfo} :
      WFTree m →
      m.lookup name = none →
      (∀ p, info.superName = some p → (m.lookup p).isSome) →
      WFTree ((name, info) :: m)

/-- "B is reachable from A by ascending the parent chain" (spec §3). -/
inductive Reaches (m : TreeMap) : String → String → Prop
  | refl (a : String) : Reaches m a a
  | step {a p b : String} {info : ClassInfo} :
      m.lookup a = some info →
      info.superName = some p →
      Reaches m p b →
      Reaches m a b

/-- Length of the suffix of `m` headed by `a`'s entry (0 if absent);
a strictly decreasing measure for the parent-chain walk. -/
def suffLen : TreeMap → String → Nat
  | [], _ => 0
  | (n, _) :: rest, a => if n = a then rest.length + 1 else suffLen rest a

/-- Class names occurring inside a type are registered.  The claim about
`is_subtype` quantifies over registered class names, so the
characterisation theorem is stated under this guard. -/
def WFType (m : TreeMap) : TR → Prop
  | .user c => (m.lookup c).isSome
  | .classLit c => (m.lookup c).isSome
  | _ => True

/-- The subtype relation exactly as the claim states it: `error` is
poison on both sides; reflexivity on built-ins; `int <: float`;
`null <: User(C)` for registered `C`; `User`/`ClassLit` pairs related by
ascending the parent chain. -/
def specSubtype (m : TreeMap) (a b : TR) : Prop :=
  a ≠ TR.error ∧ b ≠ TR.error ∧
    ((a.isBuiltIn ∧ a = b)
      ∨ (a = TR.int ∧ b = TR.float)
      ∨ (∃ c, a = TR.null ∧ b = TR.user c ∧ (m.lookup c).isSome)
      ∨ (∃ x y, a = TR.user x ∧ b = TR.user y ∧ Reaches m x y)
      ∨ (∃ x y, a = TR.classLit x ∧ b = TR.classLit y ∧ Reaches m x y))

/-! ### Member resolution (`resolve_field` / `resolve_method`) -/

/-- The recursion of `DependencyTree.__resolve_field`: stop with `None`
at the synthetic root (a node whose `superName` is `none` has the root
as parent), otherwise look in the current class's `field_map` and
recurse into the parent. -/
def fieldWalk (m : TreeMap) : Nat → String → String → Option MemberR
  | 0, _, _ => none
  | fuel + 1, cname, key =>
    match m.lookup cname with
    | some info =>
      match info.fieldMap.lookup key with
      | some f => some f
      | none =>
        match info.superName with
        | some p => fieldWalk m fuel p key
        | none => none
    | none => none

/-- The recursion of `DependencyTree.__resolve_method`. -/
def methodWalk (m : TreeMap) : Nat → String → String → Option MemberR
  | 0, _, _ => none
  | fuel + 1, cname, key =>
    match m.lookup cname with
    | some info =>
      match info.methodMap.lookup key with
      | some f => some f
      | none =>
        match info.superName with
        | some p => methodWalk m fuel p key
        | none => none
    | none => none

/-- `app = "static" if is_static else "instance"`. -/
def appString (is_static : Bool) : String :=
  if is_static then "static" else "instance"

/-- `DependencyTree.resolve_field`: a miss (unknown class, or no
matching key on the chain) is `ok none`; a hit whose applicability
contradicts the requested kind raises. -/
def resolve_field (m : TreeMap) (class_name field_name : String)
    (is_static : Bool) : Except String (Option MemberR) :=
  if (m.lookup class_name).isSome then
    let app := appString is_static
    let key := app ++ ":" ++ field_name
    match fieldWalk m (m.length + 1) class_name key with
    | some f =>
      if f.app ≠ app then
        .error ("illegal program state - expected " ++ app ++
          " but got a field with " ++ f.app ++ " instead")
      else .ok (some f)
    | none => .ok none
  else .ok none

/-- `DependencyTree.resolve_method`. -/
def resolve_method (m : TreeMap) (class_name method_name : String)
    (is_static : Bool) : Except String (Option MemberR) :=
  if (m.lookup class_name).isSome then
    let app := appString is_static
    let key := app ++ ":" ++ method_name
    match methodWalk m (m.length + 1) class_name key with
    | some f =>
      if f.app ≠ app then
        .error ("illegal program state - expected " ++ app ++
          " but got a method_name with " ++ f.app ++ " instead")
      else .ok (some f)
    | none => .ok none
  else .ok none

/-! ### Registration (`register_class`) -/

/-- The whole mutable dependency-tree state: the name-to-node map, the
synthetic root's `subclasses` list, and every node's `subclasses` list
(keyed by the node's class name). -/
structure DTState where
  reg : TreeMap
  rootChildren : List String
  subChildren : List (String × List String)
deriving DecidableEq, Repr

/-- `parent.subclasses.append(node)` on the per-class lists. -/
def addChild (l : List (String × List String)) (parent child : String) :
    List (String × List String) :=
  l.map (fun pc => if pc.1 = parent then (pc.1, pc.2 ++ [child]) else pc)

/-- `DependencyTree.register_class`, with the raise points returning the
state exactly as it stood there (no mutation precedes either raise in
the source). -/
def register_class (st : DTState) (name : String) (info : ClassInfo) :
    Except String Unit × DTState :=
  if (st.reg.lookup name).isSome then
    (.error ("duplicate class name: " ++ name), st)
  else
    match info.superName with
    | some s =>
      if (st.reg.lookup s).isSome then
        (.ok (), { reg := (name, info) :: st.reg,
                   rootChildren := st.rootChildren,
                   subChildren := (name, []) :: addChild st.subChildren s name })
      else
        (.error ("class " ++ name ++ " cannot extend unknown class: " ++ s), st)
    | none =>
      (.ok (), { reg := (name, info) :: st.reg,
                 rootChildren := st.rootChildren ++ [name],
                 subChildren := (name, []) :: st.subChildren })

/-! ### Concrete instances used by witnesses and counterexamples -/

/-- Fresh process state: temporary counter and label counter at 0. -/
def cg0 : CG := ⟨⟨0, 0⟩, 0⟩

/-- A resolved static void method of no parameters, id 2. -/
def exMeth : MethodRecCG := ⟨"f", 2, "static", [], TR.void⟩

/-- A resolved zero-argument constructor of class `A`, id 4. -/
def exCons : ConsRecCG := ⟨4, "A", []⟩

/-- A registry holding class `A` with layout size 1. -/
def exSizedTree : TreeMap := [("A", ⟨none, some 1, [], []⟩)]

def exInfoA : ClassInfo := ⟨none, none, [], []⟩

def exInfoB : ClassInfo := ⟨some "A", none, [], []⟩

/-- The registry after registering `class A` then `class B extends A`. -/
def exTree : TreeMap := [("B", exInfoB), ("A", exInfoA)]

/-- A member whose body allocates one temporary and then emits a call
site, leaving the counter's `start` at 1. -/
def exMember1 : MethodDecl :=
  ⟨"m1", 1, "static",
    .blockS [.exprS (.intC 1), .exprS (.methodCall .nullC exMeth [])]⟩

/-- A member emitted after `exMember1`; its body allocates one
temporary. -/
def exMember2 : MethodDecl := ⟨"m2", 3, "static", .exprS (.intC 2)⟩

/-- Emitting `exMember1` then `exMember2` in sequence (as
`ClassRecord.generate_code` does), keeping the second member's code and
the final counter state. -/
def twoMemberRun : Except String (List String × CG) := do
  let (_, st1) ← exMember1.generate_code [] cg0
  let (c2, st2) ← exMember2.generate_code [] st1
  Except.ok (c2.flatten, st2)

/-! ## General lemmas -/

theorem lookup_cons_pair {β : Type} (a k : String) (i : β) (m : List (String × β)) :
    List.lookup a ((k, i) :: m) = if a = k then some i else List.lookup a m := by
  by_cases h : a = k
  · simp [List.lookup, h]
  · have hb : (a == k) = false := beq_eq_false_iff_ne.mpr h
    simp [List.lookup, hb, h]

theorem suffLen_le_length (m : TreeMap) (a : String) : suffLen m a ≤ m.length := by
  induction m with
  | nil => simp [suffLen]
  | cons hd tl ih =>
    obtain ⟨n, i⟩ := hd
    simp only [suffLen, List.length_cons]
    split
    · omega
    · omega

theorem lookup_of_wf_parent {m : TreeMap} (hwf : WFTree m) : ∀ {a : String}
    {info : ClassInfo} {p : String},
    m.lookup a = some info → info.superName = some p →
    (m.lookup p).isSome ∧ suffLen m p < suffLen m a := by
  induction hwf with
  | nil => intro a info p ha _; simp [List.lookup] at ha
  | @cons m name hinfo hwf hnone hpar ih =>
    intro a info p ha hp
    rw [lookup_cons_pair] at ha
    by_cases hna : a = name
    · rw [if_pos hna] at ha
      have hinfo_eq : hinfo = info := by injection ha
      subst hinfo_eq
      have hps := hpar p hp
      have hnp : ¬ name = p := by
        intro hcon
        rw [← hcon, hnone] at hps
        simp at hps
      constructor
      · rw [lookup_cons_pair, if_neg (fun h => hnp h.symm)]
        exact hps
      · have h1 : suffLen m p ≤ m.length := suffLen_le_length m p
        simp only [suffLen, if_neg hnp, if_pos hna.symm]
        omega
    · rw [if_neg hna] at ha
      obtain ⟨hs, hl⟩ := ih ha hp
      have hnp : ¬ name = p := by
        intro hcon
        rw [← hcon, hnone] at hs
        simp at hs
      have hnam : ¬ name = a := fun h => hna h.symm
      constructor
      · rw [lookup_cons_pair, if_neg (fun h => hnp h.symm)]
        exact hs
      · simp only [suffLen, if_neg hnp, if_neg hnam]
        omega

theorem reaches_walk {m : TreeMap} (hwf : WFTree m) {a b : String}
    (h : Reaches m a b) :
    ∀ fuel, suffLen m a < fuel → chainWalk m fuel a b = true := by
  induction h with
  | refl a =>
    intro fuel hf
    match fuel, hf with
    | fuel + 1, _ => simp [chainWalk]
  | @step a p b info ha hp hr ih =>
    intro fuel hf
    match fuel, hf with
    | fuel + 1, hf =>
      by_cases hab : a = b
      · simp [chainWalk, hab]
      · obtain ⟨_, hlt⟩ := lookup_of_wf_parent hwf ha hp
        simp only [chainWalk, if_neg hab, ha, hp]
        exact ih fuel (by omega)

theorem walk_reaches {m : TreeMap} :
    ∀ fuel a b, chainWalk m fuel a b = true → Reaches m a b := by
  intro fuel
  induction fuel with
  | zero => intro a b h; simp [chainWalk] at h
  | succ f ih =>
    intro a b h
    by_cases hab : a = b
    · exact hab ▸ Reaches.refl a
    · cases hla : m.lookup a with
      | none =>
        simp only [chainWalk, if_neg hab, hla] at h
        exact absurd h (by simp)
      | some info =>
        simp only [chainWalk, if_neg hab, hla] at h
        cases hsn : info.superName with
        | none =>
          simp only [hsn] at h
          exact absurd h (by simp)
        | some p =>
          simp only [hsn] at h
          exact Reaches.step hla hsn (ih p b h)

theorem chainWalk_iff_reaches {m : TreeMap} (hwf : WFTree m) (a b : String) :
    chainWalk m (m.length + 1) a b = true ↔ Reaches m a b := by
  constructor
  · exact walk_reaches (m.length + 1) a b
  · intro h
    exact reaches_walk hwf h (m.length + 1)
      (Nat.lt_succ_of_le (suffLen_le_length m a))

/-! ## Layout lemmas (claim C6) -/

theorem assignFields_spec : ∀ (fs : List FieldL) (sctr ictr : Nat)
    (fs' : List FieldOut) (s' i' : Nat),
    assignFields fs sctr ictr = (fs', s', i') →
    (fs'.filter (fun f => f.isStatic)).map (fun f => f.offset) =
        List.range' sctr (s' - sctr)
    ∧ sctr ≤ s'
    ∧ (fs'.filter (fun f => !f.isStatic)).map (fun f => f.offset) =
        List.range' ictr (i' - ictr)
    ∧ ictr ≤ i' := by
  intro fs
  induction fs with
  | nil =>
    intro sctr ictr fs' s' i' h
    simp only [assignFields, Prod.mk.injEq] at h
    obtain ⟨h1, h2, h3⟩ := h
    subst h1; subst h2; subst h3
    simp
  | cons f rest ih =>
    intro sctr ictr fs' s' i' h
    cases hf : f.isStatic with
    | true =>
      rcases hrec : assignFields rest (sctr + 1) ictr with ⟨gs, gs', gi'⟩
      simp only [assignFields, hf, if_pos, hrec, Prod.mk.injEq] at h
      obtain ⟨h1, h2, h3⟩ := h
      subst h1; subst h2; subst h3
      obtain ⟨ih1, ih2, ih3, ih4⟩ := ih (sctr + 1) ictr gs gs' gi' hrec
      refine ⟨?_, by omega, ?_, by omega⟩
      · simp only [List.filter_cons, List.map_cons]
        rw [show gs' - sctr = (gs' - (sctr + 1)) + 1 from by omega,
          List.range'_succ]
        simpa using ih1
      · simp only [List.filter_cons]
        simpa using ih3
    | false =>
      rcases hrec : assignFields rest sctr (ictr + 1) with ⟨gs, gs', gi'⟩
      simp only [assignFields, hf, Bool.false_eq_true, if_false, hrec,
        Prod.mk.injEq] at h
      obtain ⟨h1, h2, h3⟩ := h
      subst h1; subst h2; subst h3
      obtain ⟨ih1, ih2, ih3, ih4⟩ := ih sctr (ictr + 1) gs gs' gi' hrec
      refine ⟨?_, by omega, ?_, by omega⟩
      · simp only [List.filter_cons]
        simpa using ih1
      · simp only [List.filter_cons, List.map_cons]
        rw [show gi' - ictr = (gi' - (ictr + 1)) + 1 from by omega,
          List.range'_succ]
        simpa using ih3

theorem layoutClass_ok {szm : List (String × Nat)} {sctr : Nat} {c : ClassL}
    {co : ClassOut} {sctr' : Nat}
    (h : layoutClass szm sctr c = .ok (co, sctr')) :
    staticOffsets co = List.range' sctr (sctr' - sctr)
    ∧ sctr ≤ sctr'
    ∧ (instOffsets co).Nodup
    ∧ (∀ f ∈ co.cfields, f.isStatic = false → f.offset < co.csize)
    ∧ (∀ s, c.superName = some s → ∃ v, szm.lookup s = some v ∧ v ≤ co.csize)
    ∧ co.cname = c.cname ∧ co.superName = c.superName := by
  have main : ∀ (ssize : Nat),
      assignFields c.cfields sctr ssize = (co.cfields, sctr', co.csize) →
      staticOffsets co = List.range' sctr (sctr' - sctr)
      ∧ sctr ≤ sctr'
      ∧ (instOffsets co).Nodup
      ∧ (∀ f ∈ co.cfields, f.isStatic = false → f.offset < co.csize) := by
    intro ssize hrec
    obtain ⟨h1, h2, h3, h4⟩ := assignFields_spec c.cfields sctr ssize _ _ _ hrec
    refine ⟨h1, h2, ?_, ?_⟩
    · rw [instOffsets, h3]
      exact List.nodup_range' _ _
    · intro f hf hstat
      have hmem : f.offset ∈ instOffsets co := by
        rw [instOffsets]
        exact List.mem_map_of_mem _
          (List.mem_filter.mpr ⟨hf, by rw [hstat]; rfl⟩)
      rw [instOffsets, h3] at hmem
      have := List.mem_range'_1.mp hmem
      omega
  cases hsn : c.superName with
  | none =>
    rcases hrec : assignFields c.cfields sctr 0 with ⟨gs, gs', gi'⟩
    simp only [layoutClass, superSize, hsn, hrec, Except.ok.injEq,
      Prod.mk.injEq] at h
    obtain ⟨hco, hsctr⟩ := h
    subst hsctr
    subst hco
    obtain ⟨m1, m2, m3, m4⟩ := main 0 hrec
    refine ⟨m1, m2, m3, m4, ?_, rfl, rfl⟩
    intro s hcon
    exact Option.noConfusion hcon
  | some s =>
    cases hv : szm.lookup s with
    | none => simp [layoutClass, superSize, hsn, hv] at h
    | some v =>
      rcases hrec : assignFields c.cfields sctr v with ⟨gs, gs', gi'⟩
      simp only [layoutClass, superSize, hsn, hv, hrec, Except.ok.injEq,
        Prod.mk.injEq] at h
      obtain ⟨hco, hsctr⟩ := h
      subst hsctr
      subst hco
      have hle : v ≤ gi' := (assignFields_spec c.cfields sctr v _ _ _ hrec).2.2.2
      obtain ⟨m1, m2, m3, m4⟩ := main v hrec
      refine ⟨m1, m2, m3, m4, ?_, rfl, rfl⟩
      intro s0 hs0
      injection hs0 with hs0
      subst hs0
      exact ⟨v, hv, hle⟩

theorem range'_glue {a b c : Nat} (h1 : a ≤ b) (h2 : b ≤ c) :
    List.range' a (b - a) ++ List.range' b (c - b) = List.range' a (c - a) := by
  have base := List.range'_append_1 a (b - a) (c - b)
  rw [show a + (b - a) = b from by omega] at base
  rw [base]
  congr 1
  omega

theorem resolveGo_spec : ∀ (cs : List ClassL) (sctr : Nat)
    (szm : List (String × Nat)) (outs : List ClassOut) (n : Nat),
    resolveGo cs sctr szm = .ok (outs, n) →
    allStaticOffsets outs = List.range' sctr (n - sctr)
    ∧ sctr ≤ n
    ∧ (∀ co ∈ outs, (instOffsets co).Nodup)
    ∧ (∀ co ∈ outs, ∀ f ∈ co.cfields, f.isStatic = false → f.offset < co.csize)
    ∧ (∀ co ∈ outs, ∀ s, co.superName = some s →
        (∃ v, szm.lookup s = some v ∧ v ≤ co.csize)
        ∨ (∃ so, so ∈ outs ∧ so.cname = s ∧ so.csize ≤ co.csize)) := by
  intro cs
  induction cs with
  | nil =>
    intro sctr szm outs n h
    simp only [resolveGo, Except.ok.injEq, Prod.mk.injEq] at h
    obtain ⟨houts, hn⟩ := h
    subst houts; subst hn
    simp [allStaticOffsets]
  | cons c rest ih =>
    intro sctr szm outs n h
    cases hlc : layoutClass szm sctr c with
    | error e => simp only [resolveGo, hlc] at h; cases h
    | ok r =>
      rcases r with ⟨co0, sctr1⟩
      cases hrec : resolveGo rest sctr1 ((c.cname, co0.csize) :: szm) with
      | error e => simp only [resolveGo, hlc, hrec] at h; cases h
      | ok r2 =>
        rcases r2 with ⟨outs1, n1⟩
        simp only [resolveGo, hlc, hrec, Except.ok.injEq, Prod.mk.injEq] at h
        obtain ⟨houts, hn⟩ := h
        subst houts; subst hn
        obtain ⟨l1, l2, l3, l4, l5, l6, l7⟩ := layoutClass_ok hlc
        obtain ⟨i1, i2, i3, i4, i5⟩ := ih sctr1 _ outs1 n1 hrec
        refine ⟨?_, by omega, ?_, ?_, ?_⟩
        · simp only [allStaticOffsets, List.flatMap_cons]
          simp only [allStaticOffsets] at i1
          rw [l1, i1]
          exact range'_glue l2 i2
        · intro co hco
          rcases List.mem_cons.mp hco with hh | ht
          · subst hh; exact l3
          · exact i3 co ht
        · intro co hco
          rcases List.mem_cons.mp hco with hh | ht
          · subst hh; exact l4
          · exact i4 co ht
        · intro co hco s hsup
          rcases List.mem_cons.mp hco with hh | ht
          · subst hh
            rw [l7] at hsup
            obtain ⟨v, hv, hvle⟩ := l5 s hsup
            exact Or.inl ⟨v, hv, hvle⟩
          · rcases i5 co ht s hsup with ⟨v, hv, hvle⟩ | ⟨so, hso, hsn, hsz⟩
            · rw [lookup_cons_pair] at hv
              by_cases hsc : s = c.cname
              · rw [if_pos hsc] at hv
                injection hv with hv
                exact Or.inr ⟨co0, List.mem_cons_self co0 outs1,
                  by rw [l6, hsc], by omega⟩
              · rw [if_neg hsc] at hv
                exact Or.inl ⟨v, hv, hvle⟩
            · exact Or.inr ⟨so, List.mem_cons_of_mem _ hso, hsn, hsz⟩

/-- Claim C6 (as stated) is false: for the one-class list whose class
`A` has a single static field and no instance fields, the layout pass
succeeds with `A.size = 0` while the static field's offset is 0, so the
field's offset is not strictly less than the class's size. -/
theorem c6_static_offset_not_below_size :
    resolve_sizes_and_offsets [⟨"A", none, [⟨1, true⟩]⟩] =
      .ok ([⟨"A", none, 0, [⟨1, true, 0⟩]⟩], 1)
    ∧ ¬ (∀ cs outs n, resolve_sizes_and_offsets cs = .ok (outs, n) →
          ∀ co ∈ outs, ∀ f ∈ co.cfields, f.offset < co.csize) := by
  constructor
  · rfl
  · intro hall
    have := hall [⟨"A", none, [⟨1, true⟩]⟩] [⟨"A", none, 0, [⟨1, true, 0⟩]⟩] 1
      (by rfl) ⟨"A", none, 0, [⟨1, true, 0⟩]⟩ (by simp) ⟨1, true, 0⟩ (by simp)
    simp at this

/-- Claim C6 (amended): after the layout pass succeeds, each class's
size is at least the size recorded for its superclass, every INSTANCE
field offset is strictly below the class size (static offsets live in
the separate `sap`-relative space and are not bounded by the instance
size), instance offsets within a class are distinct, static offsets
across all classes are distinct, and the returned value is the total
number of static slots. -/
theorem c6_layout_invariants :
    ∀ (cs : List ClassL) (outs : List ClassOut) (n : Nat),
      resolve_sizes_and_offsets cs = .ok (outs, n) →
      (∀ co ∈ outs, ∀ s, co.superName = some s →
        ∃ so, so ∈ outs ∧ so.cname = s ∧ so.csize ≤ co.csize)
      ∧ (∀ co ∈ outs, ∀ f ∈ co.cfields, f.isStatic = false →
          f.offset < co.csize)
      ∧ (∀ co ∈ outs, (instOffsets co).Nodup)
      ∧ (allStaticOffsets outs).Nodup
      ∧ n = (allStaticOffsets outs).length := by
  intro cs outs n h
  obtain ⟨g1, g2, g3, g4, g5⟩ := resolveGo_spec cs 0 [] outs n h
  refine ⟨?_, fun co hco => g4 co hco, g3, ?_, ?_⟩
  · intro co hco s hsup
    rcases g5 co hco s hsup with ⟨v, hv, _⟩ | hr
    · simp [List.lookup] at hv
    · exact hr
  · rw [g1]
    exact List.nodup_range' _ _
  · rw [g1, List.length_range']
    omega

/-- Witness for C6: a concrete one-class run (one instance field) on
which the amended invariants are obtained from the theorem. -/
theorem c6_layout_invariants_witness :
    (1 : Nat) = (allStaticOffsets [⟨"A", none, 1, [⟨1, true, 0⟩]⟩]).length
    ∨ (0 : Nat) = (allStaticOffsets [⟨"A", none, 1, [⟨2, false, 0⟩]⟩]).length := by
  exact Or.inr
    ((c6_layout_invariants [⟨"A", none, [⟨2, false⟩]⟩]
      [⟨"A", none, 1, [⟨2, false, 0⟩]⟩] 0 (by rfl)).2.2.2.2)

/-! ## Subtype characterisation (claim C7) -/

theorem classname_ok_iff {m : TreeMap} (hwf : WFTree m) {x y : String}
    (hx : (m.lookup x).isSome = true) (hy : (m.lookup y).isSome = true) :
    (classname_is_subtype m x y = .ok true ↔ Reaches m x y) := by
  obtain ⟨ix, hix⟩ := Option.isSome_iff_exists.mp hx
  obtain ⟨iy, hiy⟩ := Option.isSome_iff_exists.mp hy
  simp [classname_is_subtype, hix, hiy, chainWalk_iff_reaches hwf]

set_option maxHeartbeats 1000000 in
/-- Claim C7: over a well-formed registry and types whose class names
are registered, `is_subtype` returns `ok true` exactly on the relation
the claim states, and `error` (the type) is poison on both sides. -/
theorem c7_is_subtype_spec :
    ∀ (m : TreeMap), WFTree m →
      ((∀ a b, WFType m a → WFType m b →
          (is_subtype m a b = .ok true ↔ specSubtype m a b))
        ∧ (∀ x, is_subtype m TR.error x = .ok false
            ∧ is_subtype m x TR.error = .ok false)) := by
  intro m hwf
  constructor
  · intro a b ha hb
    cases a <;> cases b <;>
      (try (simp [is_subtype, specSubtype, builtin_is_subtype,
        BUILTIN_SUBTYPES, TR.isBuiltIn, WFType] at ha hb ⊢ <;> done))
    case null.user =>
      rename_i y
      simp [WFType] at hb
      simp [is_subtype, specSubtype, TR.isBuiltIn, hb]
    case user.user =>
      rename_i x y
      simp only [WFType] at ha hb
      have hred : is_subtype m (TR.user x) (TR.user y) =
          classname_is_subtype m x y := by
        simp [is_subtype, TR.isBuiltIn]
      rw [hred, classname_ok_iff hwf ha hb]
      simp [specSubtype, TR.isBuiltIn]
    case classLit.classLit =>
      rename_i x y
      simp only [WFType] at ha hb
      have hred : is_subtype m (TR.classLit x) (TR.classLit y) =
          classname_is_subtype m x y := by
        simp [is_subtype, TR.isBuiltIn]
      rw [hred, classname_ok_iff hwf ha hb]
      simp [specSubtype, TR.isBuiltIn]
  · intro x
    constructor
    · simp [is_subtype]
    · by_cases hx : x = TR.error
      · subst hx; simp [is_subtype]
      · simp [is_subtype, hx]

theorem exTree_wf : WFTree exTree := by
  refine WFTree.cons (WFTree.cons WFTree.nil ?_ ?_) ?_ ?_
  · rfl
  · intro p hp
    exact Option.noConfusion hp
  · rfl
  · intro p hp
    have hpa : "A" = p := Option.some.inj hp
    rw [← hpa]
    rfl

/-- Witness for C7: in the two-class registry, `User(B) <: User(A)`
holds through the characterisation. -/
theorem c7_is_subtype_spec_witness :
    is_subtype exTree (TR.user "B") (TR.user "A") = .ok true := by
  refine ((c7_is_subtype_spec exTree exTree_wf).1 _ _ ?_ ?_).mpr ?_
  · simp [WFType, exTree]
  · simp [WFType, exTree]
  · refine ⟨by simp, by simp, Or.inr (Or.inr (Or.inr (Or.inl
      ⟨"B", "A", rfl, rfl, ?_⟩)))⟩
    exact @Reaches.step exTree "B" "A" "A" exInfoB (by rfl) (by rfl)
      (Reaches.refl "A")

/-! ## Scope, resolution and registration claims (C8, C9, C10) -/

/-- Claim C8: `add_symbol` fails exactly when the name is already a key
of the current symbol table, and then changes nothing; otherwise it
stamps the 1-based id `len(variable_table) + 1`, appends the record to
the variable table, records it in the symbol table and succeeds. -/
theorem c8_add_symbol_spec :
    ∀ (sc : ScopeT) (ref : VariableRec),
      ((add_symbol sc ref).1 = false ↔
        (sc.symbolTable.lookup ref.vname).isSome = true)
      ∧ ((sc.symbolTable.lookup ref.vname).isSome = true →
          (add_symbol sc ref).2 = sc)
      ∧ ((sc.symbolTable.lookup ref.vname).isSome = false →
          (add_symbol sc ref).1 = true
          ∧ (add_symbol sc ref).2.variableTable =
              sc.variableTable ++
                [⟨ref.vname, some (sc.variableTable.length + 1)⟩]
          ∧ (add_symbol sc ref).2.symbolTable.lookup ref.vname =
              some ⟨ref.vname, some (sc.variableTable.length + 1)⟩) := by
  intro sc ref
  cases h : (sc.symbolTable.lookup ref.vname).isSome with
  | true =>
    refine ⟨by simp [add_symbol, h], fun _ => by simp [add_symbol, h], ?_⟩
    intro hcon
    cases hcon
  | false =>
    refine ⟨by simp [add_symbol, h], ?_, ?_⟩
    · intro hcon
      cases hcon
    · intro _
      refine ⟨by simp [add_symbol, h], by simp [add_symbol, h], ?_⟩
      simp only [add_symbol, h, Bool.false_eq_true, if_false]
      rw [lookup_cons_pair, if_pos rfl]
/-- Witness for C8: adding `x` to an empty scope succeeds. -/
theorem c8_add_symbol_spec_witness :
    (add_symbol ⟨[], []⟩ ⟨"x", none⟩).1 = true :=
  ((c8_add_symbol_spec ⟨[], []⟩ ⟨"x", none⟩).2.2 (by rfl)).1

/-- Claim C9: for an unregistered class name, `resolve_field` and
`resolve_method` return a miss (`ok none`) rather than raising; the
raising branch fires only when a member was resolved and its
applicability contradicts the requested kind. -/
theorem c9_resolve_unregistered_miss :
    (∀ (m : TreeMap) (c f : String) (s : Bool), m.lookup c = none →
        resolve_field m c f s = .ok none ∧ resolve_method m c f s = .ok none)
    ∧ (∀ (m : TreeMap) (c f : String) (s : Bool) (e : String),
        resolve_field m c f s = .error e →
          ∃ fr, fieldWalk m (m.length + 1) c (appString s ++ ":" ++ f) = some fr
            ∧ fr.app ≠ appString s)
    ∧ (∀ (m : TreeMap) (c f : String) (s : Bool) (e : String),
        resolve_method m c f s = .error e →
          ∃ fr, methodWalk m (m.length + 1) c (appString s ++ ":" ++ f) = some fr
            ∧ fr.app ≠ appString s) := by
  refine ⟨?_, ?_, ?_⟩
  · intro m c f s h
    constructor
    · simp [resolve_field, h]
    · simp [resolve_method, h]
  · intro m c f s e h
    simp only [resolve_field] at h
    split at h
    · split at h
      · rename_i fr hfr
        split at h
        · rename_i hne
          exact ⟨fr, hfr, hne⟩
        · cases h
      · cases h
    · cases h
  · intro m c f s e h
    simp only [resolve_method] at h
    split at h
    · split at h
      · rename_i fr hfr
        split at h
        · rename_i hne
          exact ⟨fr, hfr, hne⟩
        · cases h
      · cases h
    · cases h

/-- Witness for C9: the empty registry misses on any member. -/
theorem c9_resolve_unregistered_miss_witness :
    resolve_field [] "A" "x" true = .ok none
    ∧ resolve_method [] "A" "x" true = .ok none :=
  c9_resolve_unregistered_miss.1 [] "A" "x" true rfl

/-- Claim C10: `register_class` raises exactly when the name is taken or
the declared superclass is unregistered (a class extending itself
included), and on every raise the whole dependency-tree state — map,
root children and every node's subclasses list — is returned untouched
(both raises precede any mutation in the source). -/
theorem c10_register_class_atomic :
    ∀ (st : DTState) (name : String) (info : ClassInfo),
      ((∃ e, (register_class st name info).1 = .error e) ↔
        ((st.reg.lookup name).isSome = true
          ∨ ∃ s, info.superName = some s ∧ (st.reg.lookup s).isSome = false))
      ∧ ((∃ e, (register_class st name info).1 = .error e) →
          (register_class st name info).2 = st) := by
  intro st name info
  cases hdup : (st.reg.lookup name).isSome with
  | true =>
    have hr : register_class st name info =
        (.error ("duplicate class name: " ++ name), st) := by
      simp [register_class, hdup]
    rw [hr]
    exact ⟨⟨fun _ => Or.inl rfl, fun _ => ⟨_, rfl⟩⟩, fun _ => rfl⟩
  | false =>
    cases hsn : info.superName with
    | none =>
      have hr : (register_class st name info).1 = .ok () := by
        simp [register_class, hdup, hsn]
      rw [hr]
      constructor
      · constructor
        · rintro ⟨e, he⟩
          cases he
        · rintro (hl | ⟨s, hs, _⟩)
          · cases hl
          · cases hs
      · rintro ⟨e, he⟩
        cases he
    | some s =>
      cases hsup : (st.reg.lookup s).isSome with
      | true =>
        have hr : (register_class st name info).1 = .ok () := by
          simp [register_class, hdup, hsn, hsup]
        rw [hr]
        constructor
        · constructor
          · rintro ⟨e, he⟩
            cases he
          · rintro (hl | ⟨s0, hs0, hf0⟩)
            · cases hl
            · have hss : s0 = s := (Option.some.inj hs0).symm
              rw [hss, hsup] at hf0
              cases hf0
        · rintro ⟨e, he⟩
          cases he
      | false =>
        have hr : register_class st name info =
            (.error ("class " ++ name ++ " cannot extend unknown class: " ++ s),
              st) := by
          simp [register_class, hdup, hsn, hsup]
        rw [hr]
        exact ⟨⟨fun _ => Or.inr ⟨s, rfl, hsup⟩, fun _ => ⟨_, rfl⟩⟩, fun _ => rfl⟩
/-- Witness for C10: `class A extends A` on the empty tree raises and
leaves the tree untouched. -/
theorem c10_register_class_atomic_witness :
    (register_class ⟨[], [], []⟩ "A" ⟨some "A", none, [], []⟩).2 =
      (⟨[], [], []⟩ : DTState) :=
  (c10_register_class_atomic ⟨[], [], []⟩ "A" ⟨some "A", none, [], []⟩).2
    ((c10_register_class_atomic ⟨[], [], []⟩ "A" ⟨some "A", none, [], []⟩).1.mpr
      (Or.inr ⟨"A", rfl, rfl⟩))

/-! ## Call-site register round trip (claim C3) -/

/-- Claim C3: a call site (method call or new-object) leaves the
temporary counter at exactly one past its value when emission of the
call site began — the reset to the seed wipes out whatever the argument
(and base) evaluation allocated, and exactly one temporary (the
return/result holder) survives.  For `new`, the result holder is drawn
before the seed is read; for a call, after the reset. -/
theorem c3_call_site_temp_roundtrip :
    (∀ (m : TreeMap) (base : Expr) (meth : MethodRecCG) (args : List Expr)
        (st : CG) (c : Code) (r : String) (st' : CG),
        genExpr m (.methodCall base meth args) st = .ok (c, r, st') →
        st'.temp.curr = st.temp.curr + 1)
    ∧ (∀ (m : TreeMap) (cons : ConsRecCG) (args : List Expr)
        (st : CG) (c : Code) (r : String) (st' : CG),
        genExpr m (.newObject cons args) st = .ok (c, r, st') →
        st'.temp.curr = st.temp.curr + 1) := by
  constructor
  · intro m base meth args st c r st' h
    simp only [genExpr] at h
    cases hga : genArgs m meth.paramTypes args st with
    | error e => simp only [hga] at h; cases h
    | ok t1 =>
      rcases t1 with ⟨argItems, argRegs, st1⟩
      simp only [hga] at h
      by_cases happ : meth.applicability = "instance"
      · simp only [happ, eq_self_iff_true, if_true] at h
        cases hgb : genExpr m base st1 with
        | error e => simp only [hgb] at h; cases h
        | ok t2 =>
          rcases t2 with ⟨bc, bt, st2⟩
          simp only [hgb] at h
          cases ham : argMoves args argRegs 1 with
          | error e => simp only [ham] at h; cases h
          | ok moveItems =>
            simp only [ham, CG.nextTemp, TempGen.nextReg, Except.ok.injEq,
              Prod.mk.injEq] at h
            obtain ⟨h1, h2, h3⟩ := h
            rw [← h3]
            simp [TempGen.reset]
      · simp only [happ, if_false] at h
        cases ham : argMoves args argRegs 0 with
        | error e => simp only [ham] at h; cases h
        | ok moveItems =>
          simp only [ham, CG.nextTemp, TempGen.nextReg, Except.ok.injEq,
            Prod.mk.injEq] at h
          obtain ⟨h1, h2, h3⟩ := h
          rw [← h3]
          simp [TempGen.reset]
  · intro m cons args st c r st' h
    simp only [genExpr, CG.nextTemp, TempGen.nextReg] at h
    cases hcl : m.lookup cons.containingClass with
    | none => simp only [hcl] at h; cases h
    | some info =>
      simp only [hcl] at h
      cases hga : genArgs m cons.paramTypes args
          { st with temp := { st.temp with curr := st.temp.curr + 1 } } with
      | error e => simp only [hga] at h; cases h
      | ok t1 =>
        rcases t1 with ⟨argItems, argRegs, st1⟩
        simp only [hga] at h
        cases ham : argMoves args argRegs 1 with
        | error e => simp only [ham] at h; cases h
        | ok moveItems =>
          simp only [ham, Except.ok.injEq, Prod.mk.injEq] at h
          obtain ⟨h1, h2, h3⟩ := h
          rw [← h3]
          simp [TempGen.reset]

/-- Witness for C3: the concrete static call `f()` takes the counter
from 0 to exactly 1. -/
theorem c3_call_site_temp_roundtrip_witness :
    (⟨⟨0, 1⟩, 0⟩ : CG).temp.curr = cg0.temp.curr + 1 :=
  c3_call_site_temp_roundtrip.1 [] .nullC exMeth [] cg0
    (Code.blk [Code.ln "call M_f_2",
      Code.blk [Code.ln "move_immed_i t0, 0", Code.ln "# t0 = 0"]])
    "t0" ⟨⟨0, 1⟩, 0⟩ (by rfl)

/-! ## Code-generation bug exhibits (claims C1, C2, C4, C5) -/

/-- Claim C1: the claim says unary minus on an int operand loads `-1`
via `move_immed_i` and multiplies with `imul`.  The emitter compares the
operator against the misspelt literal `"unminus"` while the parser
produces `"uminus"`, so `-5` falls through to the boolean-negation path
and emits `move_immed_i t1, 1; isub t2, t1, t0` (computing `1 - x`),
with no `-1` load and no `imul` anywhere in the output. -/
theorem c1_uminus_emits_negation_path :
    (genExpr [] (.unary .uminus (.intC 5)) cg0).map (fun x => x.1.flatten) =
      .ok ["move_immed_i t0, 5", "# t0 = 5", "move_immed_i t1, 1",
           "# t1 = 1", "isub t2, t1, t0", "# t2 = !t0"] := by rfl

/-- Claim C2: the claim says the else label is followed by the code of
the else statement.  For `if (true) { 1; } else { 2; }` the emitted
sequence has the right skeleton (`bz`/then/`jmp`/label/body/label) but
the else body is a second copy of the THEN statement's code
(`move_immed_i t2, 1`): the constant 2 never appears, because the
emitter calls `self.then_stmt.generate_code` for the else body. -/
theorem c2_if_else_duplicates_then :
    (genStmt [] (.ifS (.boolC true) (.exprS (.intC 1))
        (some (.exprS (.intC 2)))) cg0).map (fun x => x.1.flatten) =
      .ok ["move_immed_i t0, 1", "# t0 = True", "bz t0, L1",
           "move_immed_i t1, 1", "# t1 = 1", "jmp L0", "L1:",
           "move_immed_i t2, 1", "# t2 = 1", "L0:"] := by rfl

/-- Claim C4: the claim says every member body starts its temporaries at
`t0`.  `Counter.reset(seed)` at a call site overwrites the counter's
`start`, so after emitting a member whose call site had seed 1, the next
member's argument-less `reset()` restarts at 1: the second member's
first temporary is `t1`, not `t0`. -/
theorem c4_second_member_pool_not_fresh :
    twoMemberRun =
      .ok (["M_m2_3:", "move_immed_i t1, 2", "# t1 = 2"], ⟨⟨1, 2⟩, 0⟩) := by rfl

/-- Claim C5: the claim lists `move_immed_i` of 0 as its own instruction
line inside the int-equality sequence.  The two adjacent f-strings in
the source concatenate, so that `move_immed_i t5, 0` is swallowed into
the preceding comment line: the non-comment instruction lines for
`5 == 7` are `ilt, igt, iadd, igt, move_immed_i 1, isub` (after the two
operand loads), with `igt` reading the never-initialised `t5`. -/
theorem c5_int_equality_missing_zero_line :
    (genExpr [] (.binary .eq (.intC 5) (.intC 7)) cg0).map
        (fun x => instrLines x.1.flatten) =
      .ok ["move_immed_i t0, 5", "move_immed_i t1, 7", "ilt t3, t1, t0",
           "igt t4, t1, t0", "iadd t2, t3, t4", "igt t2, t2, t5",
           "move_immed_i t6, 1", "isub t2, t6, t2"] := by rfl
